import Mathlib

/-!
# nixops-dns: the DNS handler of `main.go`

A shallow embedding of `domainHandler`, `handleNotFound` and `nixopsHostIp`
from `main.go`, together with the library operations they call
(`strings.TrimSuffix`, `strings.Split`, `strings.Join`, `net.ParseIP`,
`dns.Msg.SetReply`, `dns.ResponseWriter.WriteMsg`).

* Go strings are sequences of bytes; they are embedded as lists of characters.
  The only separator the program uses is the one-byte string `"."`.
* The global `nixopsStateDb` is an explicit argument: what it answers to
  `QueryRow(..., hostname, deployment).Scan(&ip)`.
* The effects of the handler (calls of `nixopsHostIp`, messages handed to
  `WriteMsg`) are recorded, in order, as a list of events.  Log lines are not
  recorded.
* A Go run-time panic (index or slice bound out of range) is an error value.
-/

set_option linter.dupNamespace false

namespace NixopsDns

/-- A Go string. -/
abbrev Str := List Char

/-! ## package `strings` -/

/-- Go `strings.HasSuffix`:
`len(s) >= len(suffix) && s[len(s)-len(suffix):] == suffix`. -/
def HasSuffix (s suffix : Str) : Bool :=
  decide (suffix.length ≤ s.length) && (s.drop (s.length - suffix.length) == suffix)

/-- Go `strings.TrimSuffix`:
`if HasSuffix(s, suffix) { return s[:len(s)-len(suffix)] }; return s`. -/
def TrimSuffix (s suffix : Str) : Str :=
  if HasSuffix s suffix then s.take (s.length - suffix.length) else s

/-- Go `strings.Split(s, sep)` for a one-byte separator `sep`: the pieces of
`s` between the occurrences of `sep`, in order (`Count(s, sep) + 1` pieces;
the empty string gives one empty piece). -/
def Split : Str → Char → List Str
  | [], _ => [[]]
  | c :: cs, sep =>
    if c = sep then [] :: Split cs sep
    else
      match Split cs sep with
      | [] => [[c]]
      | l :: ls => (c :: l) :: ls

/-- Go `strings.Join(elems, sep)`. -/
def Join : List Str → Str → Str
  | [], _ => []
  | [a], _ => a
  | a :: b :: rest, sep => a ++ sep ++ Join (b :: rest) sep

/-! ## run-time checked accesses -/

/-- A Go run-time panic raised by a checked access. -/
inductive Panic where
  | indexOutOfRange (index length : Nat)
  | sliceBoundsOutOfRange (low length : Nat)
  deriving DecidableEq, Repr

/-- The expression `xs[i]`: panics when `i` is not below `len(xs)`. -/
def index {α : Type} (xs : List α) (i : Nat) : Except Panic α :=
  match xs.get? i with
  | some x => .ok x
  | none => .error (.indexOutOfRange i xs.length)

/-- The expression `xs[i:]`: panics when `i` exceeds `len(xs)`. -/
def sliceFrom {α : Type} (xs : List α) (i : Nat) : Except Panic (List α) :=
  if i ≤ xs.length then .ok (xs.drop i) else .error (.sliceBoundsOutOfRange i xs.length)

/-! ## package `net` -/

/-- A Go `net.IP`: a byte slice; the nil slice is the empty list. -/
abbrev IP := List Nat

/-- The scan of Go `net.ParseIP`: the first `'.'` sends the whole string to
the IPv4 parser, the first `':'` to the IPv6 parser, and a string with
neither is rejected (nil). -/
def ParseIP.scan (parseIPv4 parseIPv6 : Str → IP) (s : Str) : Str → IP
  | [] => []
  | c :: cs =>
    if c = '.' then parseIPv4 s
    else if c = ':' then parseIPv6 s
    else ParseIP.scan parseIPv4 parseIPv6 s cs

/-- Go `net.ParseIP`, over the two textual parsers of package `net`, which
return nil (the empty list) on a string they reject. -/
def ParseIP (parseIPv4 parseIPv6 : Str → IP) (s : Str) : IP :=
  ParseIP.scan parseIPv4 parseIPv6 s s

/-! ## package `dns` (github.com/miekg/dns) -/

def TypeA : Nat := 1
def TypeAAAA : Nat := 28
def ClassINET : Nat := 1
def OpcodeQuery : Nat := 0
def RcodeSuccess : Nat := 0
def RcodeNameError : Nat := 3

/-- The type `dns.Question`. -/
structure Question where
  Name : Str
  Qtype : Nat
  Qclass : Nat
  deriving DecidableEq, Repr

/-- The type `dns.RR_Header`. -/
structure RR_Header where
  Name : Str
  Rrtype : Nat
  Class : Nat
  Ttl : Nat
  Rdlength : Nat
  deriving DecidableEq, Repr

/-- The type `dns.A`, the only kind of resource record the program builds. -/
structure A where
  Hdr : RR_Header
  A : IP
  deriving DecidableEq, Repr

/-- The type `dns.Msg` (with the fields of the embedded `dns.MsgHdr`). -/
structure Msg where
  Id : Nat
  Response : Bool
  Opcode : Nat
  Authoritative : Bool
  Truncated : Bool
  RecursionDesired : Bool
  RecursionAvailable : Bool
  Zero : Bool
  AuthenticatedData : Bool
  CheckingDisabled : Bool
  Rcode : Nat
  Compress : Bool
  Question : List Question
  Answer : List A
  Ns : List A
  Extra : List A
  deriving DecidableEq, Repr

/-- The zero value `new(dns.Msg)`. -/
def Msg.new : Msg :=
  { Id := 0, Response := false, Opcode := 0, Authoritative := false, Truncated := false,
    RecursionDesired := false, RecursionAvailable := false, Zero := false,
    AuthenticatedData := false, CheckingDisabled := false, Rcode := 0, Compress := false,
    Question := [], Answer := [], Ns := [], Extra := [] }

/-- The method `(*dns.Msg).SetReply`: copies the id and the opcode of the
request (and, for a plain query, its rd and cd bits), sets the response bit
and the success code, and echoes the first question of the request. -/
def Msg.SetReply (m request : Msg) : Msg :=
  let m := { m with Id := request.Id, Response := true, Opcode := request.Opcode }
  let m :=
    if m.Opcode = OpcodeQuery then
      { m with RecursionDesired := request.RecursionDesired,
               CheckingDisabled := request.CheckingDisabled }
    else m
  let m := { m with Rcode := RcodeSuccess }
  match request.Question with
  | [] => m
  | q :: _ => { m with Question := [q] }

/-! ## the state database -/

/-- Why `row.Scan(&ip)` failed: the query selected no row (`sql.ErrNoRows`),
or the store itself failed. -/
inductive ScanError where
  | errNoRows
  | storeFailure (text : Str)
  deriving DecidableEq, Repr

/-- The content of the NixOps state database as the program observes it:
the outcome of scanning the row selected by the query of `nixopsHostIp` for
a resource name (`R.name = ?`) and a deployment name (`DA.value = ?`). -/
abbrev Store := (hostname deployment : Str) → Except ScanError Str

/-- The error built by `fmt.Errorf` in `nixopsHostIp`. -/
structure LookupError where
  hostname : Str
  deployment : Str
  cause : ScanError
  deriving DecidableEq, Repr

/-- A store holding the given rows `(deployment, hostname, privateIpv4)`. -/
def rowStore (rows : List (Str × Str × Str)) : Store := fun hostname deployment =>
  match rows.find? (fun row => row.1 == deployment && row.2.1 == hostname) with
  | some row => .ok row.2.2
  | none => .error .errNoRows

/-- A store whose every query fails. -/
def brokenStore (text : Str) : Store := fun _ _ => .error (.storeFailure text)

/-! ## `main.go` -/

/-- The function `nixopsHostIp` of `main.go`. -/
def nixopsHostIp (nixopsStateDb : Store) (parseIPv4 parseIPv6 : Str → IP)
    (deployment hostname : Str) : Except LookupError IP :=
  match nixopsStateDb hostname deployment with
  | .error err => .error { hostname := hostname, deployment := deployment, cause := err }
  | .ok ip => .ok (ParseIP parseIPv4 parseIPv6 ip)

/-- What the handler does to the outside, in order. -/
inductive Event where
  | lookup (deployment hostname : Str)
  | write (m : Msg)
  deriving DecidableEq, Repr

/-- The function `handleNotFound` of `main.go`; `w` holds the events so far. -/
def handleNotFound (w : List Event) (r : Msg) : List Event :=
  let m := Msg.new
  let m := m.SetReply r
  let m := { m with Rcode := RcodeNameError }
  w ++ [Event.write m]

/-- The closure returned by `domainHandler domain` in `main.go`, applied to
the request `r`. -/
def domainHandler (nixopsStateDb : Store) (parseIPv4 parseIPv6 : Str → IP)
    (domain : Str) (r : Msg) : Except Panic (List Event) :=
  match index r.Question 0 with
  | .error p => .error p
  | .ok q =>
    if q.Qtype ≠ TypeA ∨ q.Qclass ≠ ClassINET then
      .ok (handleNotFound [] r)
    else
      let query := Split (TrimSuffix q.Name (domain ++ ['.'])) '.'
      if query.length < 2 then
        .ok []
      else
        match index query 0 with
        | .error p => .error p
        | .ok hostname =>
          match sliceFrom query 1 with
          | .error p => .error p
          | .ok rest =>
            let deployment := Join rest ['.']
            let w := [Event.lookup deployment hostname]
            match nixopsHostIp nixopsStateDb parseIPv4 parseIPv6 deployment hostname with
            | .error _ => .ok (handleNotFound w r)
            | .ok ip =>
              let m := Msg.new
              let m := m.SetReply r
              let a : A :=
                { Hdr := { Name := q.Name, Rrtype := TypeA, Class := ClassINET, Ttl := 30,
                           Rdlength := 0 },
                  A := ip }
              let m := { m with Answer := [a] }
              .ok (w ++ [Event.write m])

/-- A request carrying one question. -/
def request (id : Nat) (name : String) (qtype qclass : Nat) : Msg :=
  { Msg.new with Id := id, RecursionDesired := true,
                 Question := [{ Name := name.toList, Qtype := qtype, Qclass := qclass }] }

/-- The message id of every written message replaced by `id`. -/
def Event.setId (id : Nat) : Event → Event
  | .lookup d h => .lookup d h
  | .write m => .write { m with Id := id }

/-! ## fixtures for the scenarios

The textual IPv4 parser of package `net`, so that the scenarios can be
evaluated; the theorems about the handler hold for every pair of parsers. -/

/-- The constant `big` of package `net`. -/
def big : Nat := 0xFFFFFF

/-- The loop of Go `net.dtoi` over the rest of the string, with the number
`n` read so far and the count `i` of digits consumed. -/
def dtoi.loop : Str → Nat → Nat → Nat × Nat × Bool
  | [], n, i => if i = 0 then (0, 0, false) else (n, i, true)
  | c :: cs, n, i =>
    if '0' ≤ c ∧ c ≤ '9' then
      let n := n * 10 + (c.toNat - '0'.toNat)
      if big ≤ n then (big, i, false) else dtoi.loop cs n (i + 1)
    else if i = 0 then (0, 0, false) else (n, i, true)

/-- Go `net.dtoi`: the decimal number at the start of `s`, the count of
characters consumed, and whether a number was read. -/
def dtoi (s : Str) : Nat × Nat × Bool := dtoi.loop s 0 0

/-- The loop of Go `net.parseIPv4` over the `k` octets still to read;
`first` holds for the octet that needs no leading dot. -/
def parseIPv4.octets : Nat → Bool → Str → Option (List Nat × Str)
  | 0, _, s => some ([], s)
  | k + 1, first, s =>
    if s.length = 0 then none
    else
      let afterDot : Option Str :=
        if first then some s
        else
          match s with
          | '.' :: s1 => some s1
          | _ => none
      match afterDot with
      | none => none
      | some s =>
        match dtoi s with
        | (n, c, ok) =>
          if !ok || decide (0xFF < n) then none
          else if decide (1 < c) && (s.head? == some '0') then none
          else
            match parseIPv4.octets k false (s.drop c) with
            | none => none
            | some (p, s2) => some (n :: p, s2)

/-- Go `net.parseIPv4`: four decimal octets separated by dots, as the
16-byte form built by `net.IPv4`; nil on any other string. -/
def parseIPv4 (s : Str) : IP :=
  match parseIPv4.octets 4 true s with
  | some (p, []) => [0, 0, 0, 0, 0, 0, 0, 0, 0, 0, 0xff, 0xff] ++ p
  | _ => []

/-- An IPv6 parser that rejects every string; it stands in the scenarios,
whose stored values hold no colon, so that it is never called there. -/
def noIPv6 : Str → IP := fun _ => []

/-- The store of the scenarios: deployment `myapp`, with machine `db1` at
`10.0.0.5` and a machine `bad` whose recorded address is not an address. -/
def scenarioStore : Store :=
  rowStore [("myapp".toList, "db1".toList, "10.0.0.5".toList),
            ("myapp".toList, "bad".toList, "not-an-ip".toList),
            ("staging.myapp".toList, "db1".toList, "10.0.0.6".toList)]

/-- The configured domain of the scenarios, `-domain=.ops`. -/
def opsDomain : Str := ".ops".toList

/-! ## facts about the string operations -/

theorem Split_ne_nil (s : Str) (sep : Char) : Split s sep ≠ [] := by
  induction s with
  | nil => simp [Split]
  | cons c cs ih =>
    unfold Split
    split
    · simp
    · split <;> simp

theorem Split_length_pos (s : Str) (sep : Char) : 1 ≤ (Split s sep).length := by
  have h := Split_ne_nil s sep
  cases hs : Split s sep with
  | nil => exact absurd hs h
  | cons a l => simp

/-- The count of pieces is the count of separators plus one, as in Go. -/
theorem Split_length_count (s : Str) (sep : Char) :
    (Split s sep).length = s.count sep + 1 := by
  induction s with
  | nil => simp [Split]
  | cons c cs ih =>
    unfold Split
    split
    · rename_i hc
      simp [ih, hc]
    · rename_i hc
      cases hs : Split cs sep with
      | nil => exact absurd hs (Split_ne_nil cs sep)
      | cons a l =>
        rw [hs] at ih
        have hne : ¬ (c == sep) = true := by simpa using hc
        simp [List.count_cons, hne] at ih ⊢
        exact ih

/-- No piece holds the separator. -/
theorem Split_piece_no_sep (s : Str) (sep : Char) :
    ∀ piece ∈ Split s sep, sep ∉ piece := by
  induction s with
  | nil =>
    intro piece hp
    simp [Split] at hp
    rw [hp]
    exact List.not_mem_nil _
  | cons c cs ih =>
    intro piece hp
    unfold Split at hp
    split at hp
    · rcases List.mem_cons.1 hp with h | h
      · rw [h]
        exact List.not_mem_nil _
      · exact ih piece h
    · rename_i hc
      cases hs : Split cs sep with
      | nil => exact absurd hs (Split_ne_nil cs sep)
      | cons a l =>
        rw [hs] at hp ih
        rcases List.mem_cons.1 hp with h | h
        · rw [h]
          intro hmem
          rcases List.mem_cons.1 hmem with e | e
          · exact hc e.symm
          · exact ih a (List.mem_cons_self a l) e
        · exact ih piece (List.mem_cons_of_mem a h)

theorem Join_Split (s : Str) (sep : Char) : Join (Split s sep) [sep] = s := by
  induction s with
  | nil => simp [Split, Join]
  | cons c cs ih =>
    unfold Split
    split
    · rename_i hc
      cases hs : Split cs sep with
      | nil => exact absurd hs (Split_ne_nil cs sep)
      | cons a l =>
        rw [hs] at ih
        simp [Join, ih, hc]
    · cases hs : Split cs sep with
      | nil => exact absurd hs (Split_ne_nil cs sep)
      | cons a l =>
        rw [hs] at ih
        cases l with
        | nil => simp [Join] at ih ⊢; exact ih
        | cons b l2 => simp [Join] at ih ⊢; exact ih

theorem Split_head_no_sep (s : Str) (sep : Char) (h : Str) (t : List Str)
    (hs : Split s sep = h :: t) : sep ∉ h := by
  induction s generalizing h t with
  | nil =>
    simp [Split] at hs
    rw [hs.1]
    exact List.not_mem_nil _
  | cons c cs ih =>
    unfold Split at hs
    split at hs
    · simp at hs
      rw [hs.1]
      exact List.not_mem_nil _
    · rename_i hc
      cases hcs : Split cs sep with
      | nil => exact absurd hcs (Split_ne_nil cs sep)
      | cons a l =>
        rw [hcs] at hs
        simp at hs
        have := ih a l hcs
        rw [← hs.1]
        simp [this]
        exact fun e => hc e.symm

theorem Split_cons_cons (s : Str) (sep : Char) (h b : Str) (t : List Str)
    (hs : Split s sep = h :: b :: t) : h ++ [sep] ++ Join (b :: t) [sep] = s := by
  have := Join_Split s sep
  rw [hs] at this
  simpa [Join] using this

theorem HasSuffix_iff (s suffix : Str) : HasSuffix s suffix = true ↔ suffix <:+ s := by
  unfold HasSuffix
  constructor
  · intro h
    simp at h
    rw [← h.2]
    exact List.drop_suffix _ _
  · rintro ⟨p, rfl⟩
    simp

theorem TrimSuffix_append (p suffix : Str) : TrimSuffix (p ++ suffix) suffix = p := by
  have h : HasSuffix (p ++ suffix) suffix = true := (HasSuffix_iff _ _).2 ⟨p, rfl⟩
  simp [TrimSuffix, h]

theorem TrimSuffix_of_not_suffix (s suffix : Str) (h : ¬ suffix <:+ s) :
    TrimSuffix s suffix = s := by
  have h2 : ¬ HasSuffix s suffix = true := fun e => h ((HasSuffix_iff _ _).1 e)
  simp [TrimSuffix, h2]

/-! ## the paths of the handler -/

theorem domainHandler_no_question (db : Store) (p4 p6 : Str → IP) (domain : Str) (r : Msg)
    (hq : r.Question = []) :
    domainHandler db p4 p6 domain r = .error (.indexOutOfRange 0 0) := by
  simp [domainHandler, index, hq]

theorem domainHandler_rejected (db : Store) (p4 p6 : Str → IP) (domain : Str) (r : Msg)
    (q : Question) (qs : List Question) (hq : r.Question = q :: qs)
    (hgate : q.Qtype ≠ TypeA ∨ q.Qclass ≠ ClassINET) :
    domainHandler db p4 p6 domain r = .ok (handleNotFound [] r) := by
  simp only [domainHandler, index, hq, List.get?_cons_zero]
  rw [if_pos hgate]

theorem domainHandler_short (db : Store) (p4 p6 : Str → IP) (domain : Str) (r : Msg)
    (q : Question) (qs : List Question) (hq : r.Question = q :: qs)
    (hA : q.Qtype = TypeA) (hC : q.Qclass = ClassINET)
    (hlen : (Split (TrimSuffix q.Name (domain ++ ['.'])) '.').length < 2) :
    domainHandler db p4 p6 domain r = .ok [] := by
  have hgate : ¬ (q.Qtype ≠ TypeA ∨ q.Qclass ≠ ClassINET) := by simp [hA, hC]
  simp only [domainHandler, index, hq, List.get?_cons_zero]
  rw [if_neg hgate]
  simp only [if_pos hlen]

theorem domainHandler_parsed (db : Store) (p4 p6 : Str → IP) (domain : Str) (r : Msg)
    (q : Question) (qs : List Question) (hq : r.Question = q :: qs)
    (hA : q.Qtype = TypeA) (hC : q.Qclass = ClassINET)
    (hostname label : Str) (more : List Str)
    (hsplit : Split (TrimSuffix q.Name (domain ++ ['.'])) '.' = hostname :: label :: more) :
    domainHandler db p4 p6 domain r =
      match nixopsHostIp db p4 p6 (Join (label :: more) ['.']) hostname with
      | .error _ => .ok (handleNotFound [Event.lookup (Join (label :: more) ['.']) hostname] r)
      | .ok ip =>
        .ok [Event.lookup (Join (label :: more) ['.']) hostname,
             Event.write { Msg.new.SetReply r with
               Answer := [{ Hdr := { Name := q.Name, Rrtype := TypeA, Class := ClassINET,
                                     Ttl := 30, Rdlength := 0 },
                            A := ip }] }] := by
  have hgate : ¬ (q.Qtype ≠ TypeA ∨ q.Qclass ≠ ClassINET) := by simp [hA, hC]
  simp only [domainHandler, index, hq, List.get?_cons_zero]
  rw [if_neg hgate]
  simp only [hsplit]
  simp [sliceFrom]

theorem two_le_length_iff {α : Type} (l : List α) :
    2 ≤ l.length ↔ ∃ a b t, l = a :: b :: t := by
  constructor
  · intro h
    match l, h with
    | a :: b :: t, _ => exact ⟨a, b, t, rfl⟩
  · rintro ⟨a, b, t, rfl⟩
    simp

theorem SetReply_fields (r : Msg) (q : Question) (qs : List Question)
    (hq : r.Question = q :: qs) :
    (Msg.new.SetReply r).Id = r.Id ∧ (Msg.new.SetReply r).Response = true ∧
    (Msg.new.SetReply r).Question = [q] ∧ (Msg.new.SetReply r).Rcode = RcodeSuccess ∧
    (Msg.new.SetReply r).Answer = [] := by
  unfold Msg.SetReply
  simp only [hq]
  split <;> simp [Msg.new]

/-! ## the string operations against the list library -/

/-- The pieces are those of the library split of a list at an element. -/
theorem Split_eq_splitOn (s : Str) (sep : Char) : Split s sep = s.splitOn sep := by
  induction s with
  | nil => simp [Split, List.splitOn_nil]
  | cons c cs ih =>
    unfold Split
    rw [List.splitOn, List.splitOnP_cons, ← List.splitOn, ← ih]
    by_cases hc : c = sep
    · simp [hc]
    · have hne : ¬ (c == sep) = true := by simpa using hc
      rw [if_neg hc, if_neg hne]
      cases hs : Split cs sep with
      | nil => exact absurd hs (Split_ne_nil cs sep)
      | cons a l => simp [List.modifyHead]

/-- The join is the library intercalation of the separator. -/
theorem Join_eq_intercalate (elems : List Str) (sep : Str) :
    Join elems sep = sep.intercalate elems := by
  induction elems with
  | nil => simp [Join, List.intercalate]
  | cons a l ih =>
    cases l with
    | nil => simp [Join, List.intercalate]
    | cons b l2 =>
      simp only [Join]
      rw [ih]
      simp [List.intercalate]

/-- A string without the separator is its own single piece. -/
theorem Split_of_not_mem (s : Str) (sep : Char) (h : sep ∉ s) : Split s sep = [s] := by
  induction s with
  | nil => simp [Split]
  | cons c cs ih =>
    have hc : ¬ c = sep := fun e => h (by simp [e])
    have hcs : sep ∉ cs := fun e => h (List.mem_cons_of_mem c e)
    unfold Split
    rw [if_neg hc, ih hcs]

/-- The first separator ends the first piece. -/
theorem Split_append_sep (h d : Str) (sep : Char) (hh : sep ∉ h) :
    Split (h ++ [sep] ++ d) sep = h :: Split d sep := by
  induction h with
  | nil => simp [Split]
  | cons c cs ih =>
    have hc : ¬ c = sep := fun e => hh (by simp [e])
    have hcs : sep ∉ cs := fun e => hh (List.mem_cons_of_mem c e)
    have ih2 := ih hcs
    simp only [List.cons_append] at ih2 ⊢
    simp only [Split, if_neg hc, ih2]

/-- A type-A, class-INET question whose trimmed name is `h.d`, with no dot in
`h`, is looked up as machine `h` of deployment `d`. -/
theorem domainHandler_lookup_of_parts (db : Store) (p4 p6 : Str → IP) (domain : Str) (r : Msg)
    (q : Question) (qs : List Question) (hq : r.Question = q :: qs)
    (hA : q.Qtype = TypeA) (hC : q.Qclass = ClassINET) (h d : Str) (hh : '.' ∉ h)
    (hrem : TrimSuffix q.Name (domain ++ ['.']) = h ++ ['.'] ++ d) :
    ∃ tail, domainHandler db p4 p6 domain r = .ok (Event.lookup d h :: tail) := by
  have hsplit : Split (TrimSuffix q.Name (domain ++ ['.'])) '.' = h :: Split d '.' := by
    rw [hrem]
    exact Split_append_sep h d '.' hh
  have hjoin := Join_Split d '.'
  cases hd : Split d '.' with
  | nil => exact absurd hd (Split_ne_nil d '.')
  | cons label more =>
    rw [hd] at hsplit hjoin
    have hrun := domainHandler_parsed db p4 p6 domain r q qs hq hA hC h label more hsplit
    rw [hjoin] at hrun
    cases hip : nixopsHostIp db p4 p6 d h with
    | error e =>
      rw [hip] at hrun
      exact ⟨_, hrun⟩
    | ok ip =>
      rw [hip] at hrun
      exact ⟨_, hrun⟩

/-- A type-A, class-INET question whose trimmed name holds no dot is dropped. -/
theorem domainHandler_silent_of_no_dot (db : Store) (p4 p6 : Str → IP) (domain : Str) (r : Msg)
    (q : Question) (qs : List Question) (hq : r.Question = q :: qs)
    (hA : q.Qtype = TypeA) (hC : q.Qclass = ClassINET)
    (hrem : '.' ∉ TrimSuffix q.Name (domain ++ ['.'])) :
    domainHandler db p4 p6 domain r = .ok [] := by
  apply domainHandler_short db p4 p6 domain r q qs hq hA hC
  rw [Split_of_not_mem _ _ hrem]
  simp

/-! ## the claims -/

/-- C1: when the name of the first question, with the suffix `domain + "."`
trimmed (the name without that tail when it ends with it, the whole name
otherwise), splits on `"."` into at least two labels, the labels are the
pieces of the trimmed name between its dots, the first of them holds no dot,
and the first label, a dot and the remaining labels joined with dots make
up the trimmed name; the handler ends without a panic, every lookup it
performs has the first label as hostname and the remaining labels joined
with `"."` as deployment, for a type-A, class-INET question that lookup is
the first thing it does, and for any other question it only rejects. -/
theorem C1_lookup_first_label_and_joined_rest
    (db : Store) (p4 p6 : Str → IP) (domain : Str) (r : Msg) (q : Question)
    (qs : List Question) (hq : r.Question = q :: qs)
    (hlen : 2 ≤ (Split (TrimSuffix q.Name (domain ++ ['.'])) '.').length) :
    ∃ hostname rest evs,
      Split (TrimSuffix q.Name (domain ++ ['.'])) '.' = hostname :: rest ∧
      (TrimSuffix q.Name (domain ++ ['.'])).splitOn '.' = hostname :: rest ∧
      ((domain ++ ['.']) <:+ q.Name →
        TrimSuffix q.Name (domain ++ ['.']) ++ (domain ++ ['.']) = q.Name) ∧
      (¬ (domain ++ ['.']) <:+ q.Name → TrimSuffix q.Name (domain ++ ['.']) = q.Name) ∧
      '.' ∉ hostname ∧
      hostname ++ ['.'] ++ ['.'].intercalate rest = TrimSuffix q.Name (domain ++ ['.']) ∧
      domainHandler db p4 p6 domain r = .ok evs ∧
      (∀ d h, Event.lookup d h ∈ evs → h = hostname ∧ d = ['.'].intercalate rest) ∧
      (q.Qtype = TypeA → q.Qclass = ClassINET →
        ∃ tail, evs = Event.lookup (['.'].intercalate rest) hostname :: tail) ∧
      (¬ (q.Qtype = TypeA ∧ q.Qclass = ClassINET) → evs = handleNotFound [] r) := by
  obtain ⟨hostname, label, more, hsplit⟩ := (two_le_length_iff _).1 hlen
  have hlib : (TrimSuffix q.Name (domain ++ ['.'])).splitOn '.' = hostname :: label :: more := by
    rw [← Split_eq_splitOn]
    exact hsplit
  have hsuf : (domain ++ ['.']) <:+ q.Name →
      TrimSuffix q.Name (domain ++ ['.']) ++ (domain ++ ['.']) = q.Name := by
    rintro ⟨p, hp⟩
    rw [← hp, TrimSuffix_append]
  have hkeep := TrimSuffix_of_not_suffix q.Name (domain ++ ['.'])
  have hdot := Split_head_no_sep _ _ _ _ hsplit
  have hJ : Join (label :: more) ['.'] = ['.'].intercalate (label :: more) :=
    Join_eq_intercalate _ _
  have hback := Split_cons_cons _ _ _ _ _ hsplit
  rw [hJ] at hback
  by_cases hgate : q.Qtype ≠ TypeA ∨ q.Qclass ≠ ClassINET
  · refine ⟨hostname, label :: more, handleNotFound [] r, hsplit, hlib, hsuf, hkeep, hdot, hback,
      domainHandler_rejected db p4 p6 domain r q qs hq hgate, ?_, ?_, ?_⟩
    · intro d h hmem
      simp [handleNotFound] at hmem
    · intro hA hC
      rcases hgate with h | h
      · exact absurd hA h
      · exact absurd hC h
    · intro _
      rfl
  · have hA : q.Qtype = TypeA := by
      by_contra h
      exact hgate (Or.inl h)
    have hC : q.Qclass = ClassINET := by
      by_contra h
      exact hgate (Or.inr h)
    have hrun := domainHandler_parsed db p4 p6 domain r q qs hq hA hC hostname label more hsplit
    rw [hJ] at hrun
    cases hip : nixopsHostIp db p4 p6 (['.'].intercalate (label :: more)) hostname with
    | error e =>
      rw [hip] at hrun
      refine ⟨hostname, label :: more, _, hsplit, hlib, hsuf, hkeep, hdot, hback, hrun, ?_, ?_, ?_⟩
      · intro d h hmem
        simp [handleNotFound] at hmem
        exact ⟨hmem.2, hmem.1⟩
      · intro _ _
        exact ⟨_, rfl⟩
      · intro hn
        exact absurd ⟨hA, hC⟩ hn
    | ok ip =>
      rw [hip] at hrun
      refine ⟨hostname, label :: more, _, hsplit, hlib, hsuf, hkeep, hdot, hback, hrun, ?_, ?_, ?_⟩
      · intro d h hmem
        simp at hmem
        exact ⟨hmem.2, hmem.1⟩
      · intro _ _
        exact ⟨_, rfl⟩
      · intro hn
        exact absurd ⟨hA, hC⟩ hn

/-- C1 at domain `.ops` and the name `db1.staging.myapp.ops.`: the handler
looks up machine `db1` of deployment `staging.myapp`. -/
theorem C1_lookup_first_label_and_joined_rest_witness :
    2 ≤ (Split (TrimSuffix "db1.staging.myapp.ops.".toList (opsDomain ++ ['.'])) '.').length ∧
    ∃ tail, domainHandler scenarioStore parseIPv4 noIPv6 opsDomain
        (request 1 "db1.staging.myapp.ops." TypeA ClassINET) =
      .ok (Event.lookup "staging.myapp".toList "db1".toList :: tail) := by
  refine ⟨by decide, ?_⟩
  obtain ⟨hostname, rest, evs, hs, _, _, _, _, _, hrun, _, hfirst, _⟩ :=
    C1_lookup_first_label_and_joined_rest scenarioStore parseIPv4 noIPv6 opsDomain
      (request 1 "db1.staging.myapp.ops." TypeA ClassINET)
      { Name := "db1.staging.myapp.ops.".toList, Qtype := TypeA, Qclass := ClassINET } []
      rfl (by decide)
  obtain ⟨tail, ht⟩ := hfirst rfl rfl
  have hl : hostname :: rest = ["db1".toList, "staging".toList, "myapp".toList] :=
    hs.symm.trans (by decide)
  injection hl with h1 h2
  refine ⟨tail, ?_⟩
  rw [hrun, ht, h1, h2]
  rfl

/-- C2: for a type-A, class-INET question whose name, with the suffix
`domain + "."` trimmed, splits into fewer than two labels, the handler ends
having performed no lookup and written no message. -/
theorem C2_short_name_no_lookup_no_reply
    (db : Store) (p4 p6 : Str → IP) (domain : Str) (r : Msg) (q : Question)
    (qs : List Question) (hq : r.Question = q :: qs)
    (hA : q.Qtype = TypeA) (hC : q.Qclass = ClassINET)
    (hlen : (Split (TrimSuffix q.Name (domain ++ ['.'])) '.').length < 2) :
    domainHandler db p4 p6 domain r = .ok [] :=
  domainHandler_short db p4 p6 domain r q qs hq hA hC hlen

/-- C2 at domain `.ops` and the name `onlyonelabel.ops.`. -/
theorem C2_short_name_no_lookup_no_reply_witness :
    (Split (TrimSuffix "onlyonelabel.ops.".toList (opsDomain ++ ['.'])) '.').length < 2 ∧
    domainHandler scenarioStore parseIPv4 noIPv6 opsDomain
      (request 2 "onlyonelabel.ops." TypeA ClassINET) = .ok [] :=
  ⟨by decide,
   C2_short_name_no_lookup_no_reply scenarioStore parseIPv4 noIPv6 opsDomain
    (request 2 "onlyonelabel.ops." TypeA ClassINET)
    { Name := "onlyonelabel.ops.".toList, Qtype := TypeA, Qclass := ClassINET } []
    rfl rfl rfl (by decide)⟩

/-- C3: for a request whose first question is not type A or not class INET,
whatever the store, the domain and the name, the handler does exactly one
thing: it writes one reply, which echoes the id and the first question, has
result code NXDOMAIN and no answer; it performs no lookup. -/
theorem C3_other_type_or_class_rejected
    (db : Store) (p4 p6 : Str → IP) (domain : Str) (r : Msg) (q : Question)
    (qs : List Question) (hq : r.Question = q :: qs)
    (hgate : q.Qtype ≠ TypeA ∨ q.Qclass ≠ ClassINET) :
    ∃ m, domainHandler db p4 p6 domain r = .ok [Event.write m] ∧
      m.Id = r.Id ∧ m.Response = true ∧ m.Question = [q] ∧
      m.Rcode = RcodeNameError ∧ m.Answer = [] := by
  obtain ⟨h1, h2, h3, _, h5⟩ := SetReply_fields r q qs hq
  exact ⟨{ Msg.new.SetReply r with Rcode := RcodeNameError },
    domainHandler_rejected db p4 p6 domain r q qs hq hgate, h1, h2, h3, rfl, h5⟩

/-- C3 at an AAAA question for a name the store knows. -/
theorem C3_other_type_or_class_rejected_witness :
    (TypeAAAA ≠ TypeA ∨ ClassINET ≠ ClassINET) ∧
    ∃ m, domainHandler scenarioStore parseIPv4 noIPv6 opsDomain
        (request 3 "db1.myapp.ops." TypeAAAA ClassINET) = .ok [Event.write m] ∧
      m.Id = 3 ∧ m.Response = true ∧
      m.Question = [{ Name := "db1.myapp.ops.".toList, Qtype := TypeAAAA, Qclass := ClassINET }] ∧
      m.Rcode = RcodeNameError ∧ m.Answer = [] :=
  ⟨Or.inl (by decide),
   C3_other_type_or_class_rejected scenarioStore parseIPv4 noIPv6 opsDomain
    (request 3 "db1.myapp.ops." TypeAAAA ClassINET)
    { Name := "db1.myapp.ops.".toList, Qtype := TypeAAAA, Qclass := ClassINET } []
    rfl (Or.inl (by decide))⟩

/-- C4: for a type-A, class-INET question whose trimmed name splits into a
hostname and at least one more label, when `nixopsHostIp` returns an address
`ip` without error the handler performs that one lookup and writes exactly
one reply: it echoes the id and the first question, has the success code,
and carries exactly one answer, of type A, class INET, TTL 30, with the
queried name and the address `ip`. -/
theorem C4_positive_answer
    (db : Store) (p4 p6 : Str → IP) (domain : Str) (r : Msg) (q : Question)
    (qs : List Question) (hq : r.Question = q :: qs)
    (hA : q.Qtype = TypeA) (hC : q.Qclass = ClassINET)
    (hostname label : Str) (more : List Str)
    (hsplit : Split (TrimSuffix q.Name (domain ++ ['.'])) '.' = hostname :: label :: more)
    (ip : IP)
    (hip : nixopsHostIp db p4 p6 (Join (label :: more) ['.']) hostname = .ok ip) :
    ∃ m a, domainHandler db p4 p6 domain r =
        .ok [Event.lookup (Join (label :: more) ['.']) hostname, Event.write m] ∧
      m.Id = r.Id ∧ m.Response = true ∧ m.Question = [q] ∧ m.Rcode = RcodeSuccess ∧
      m.Answer = [a] ∧
      a.Hdr.Rrtype = TypeA ∧ a.Hdr.Class = ClassINET ∧ a.Hdr.Ttl = 30 ∧
      a.Hdr.Name = q.Name ∧ a.A = ip := by
  have hrun := domainHandler_parsed db p4 p6 domain r q qs hq hA hC hostname label more hsplit
  rw [hip] at hrun
  obtain ⟨h1, h2, h3, h4, _⟩ := SetReply_fields r q qs hq
  exact ⟨_, _, hrun, h1, h2, h3, h4, rfl, rfl, rfl, rfl, rfl, rfl⟩

/-- C4 at domain `.ops`, the name `db1.myapp.ops.` and a store that records
`10.0.0.5` for machine `db1` of deployment `myapp`. -/
theorem C4_positive_answer_witness :
    ∃ m a, domainHandler scenarioStore parseIPv4 noIPv6 opsDomain
        (request 4 "db1.myapp.ops." TypeA ClassINET) =
        .ok [Event.lookup (Join ["myapp".toList] ['.']) "db1".toList, Event.write m] ∧
      m.Id = 4 ∧ m.Response = true ∧
      m.Question = [{ Name := "db1.myapp.ops.".toList, Qtype := TypeA, Qclass := ClassINET }] ∧
      m.Rcode = RcodeSuccess ∧ m.Answer = [a] ∧
      a.Hdr.Rrtype = TypeA ∧ a.Hdr.Class = ClassINET ∧ a.Hdr.Ttl = 30 ∧
      a.Hdr.Name = "db1.myapp.ops.".toList ∧
      a.A = [0, 0, 0, 0, 0, 0, 0, 0, 0, 0, 255, 255, 10, 0, 0, 5] :=
  C4_positive_answer scenarioStore parseIPv4 noIPv6 opsDomain
    (request 4 "db1.myapp.ops." TypeA ClassINET)
    { Name := "db1.myapp.ops.".toList, Qtype := TypeA, Qclass := ClassINET } []
    rfl rfl rfl "db1".toList "myapp".toList [] (by decide)
    [0, 0, 0, 0, 0, 0, 0, 0, 0, 0, 255, 255, 10, 0, 0, 5] rfl

/-- C5: for a type-A, class-INET question whose trimmed name splits into a
hostname and at least one more label, when `nixopsHostIp` returns an error,
of either kind, the handler performs that one lookup and writes exactly one
reply, the one `handleNotFound` writes for the request whatever the error
is: it echoes the id and the first question, has result code NXDOMAIN and
no answer. -/
theorem C5_lookup_error_rejected
    (db : Store) (p4 p6 : Str → IP) (domain : Str) (r : Msg) (q : Question)
    (qs : List Question) (hq : r.Question = q :: qs)
    (hA : q.Qtype = TypeA) (hC : q.Qclass = ClassINET)
    (hostname label : Str) (more : List Str)
    (hsplit : Split (TrimSuffix q.Name (domain ++ ['.'])) '.' = hostname :: label :: more)
    (e : LookupError)
    (hip : nixopsHostIp db p4 p6 (Join (label :: more) ['.']) hostname = .error e) :
    ∃ m, domainHandler db p4 p6 domain r =
        .ok [Event.lookup (Join (label :: more) ['.']) hostname, Event.write m] ∧
      handleNotFound [] r = [Event.write m] ∧
      m.Id = r.Id ∧ m.Response = true ∧ m.Question = [q] ∧
      m.Rcode = RcodeNameError ∧ m.Answer = [] := by
  have hrun := domainHandler_parsed db p4 p6 domain r q qs hq hA hC hostname label more hsplit
  rw [hip] at hrun
  obtain ⟨h1, h2, h3, _, h5⟩ := SetReply_fields r q qs hq
  exact ⟨{ Msg.new.SetReply r with Rcode := RcodeNameError }, hrun, rfl, h1, h2, h3, rfl, h5⟩

/-- C5 at a machine the store does not know (no row selected). -/
theorem C5_lookup_error_rejected_witness :
    ∃ m, domainHandler scenarioStore parseIPv4 noIPv6 opsDomain
        (request 5 "web9.myapp.ops." TypeA ClassINET) =
        .ok [Event.lookup (Join ["myapp".toList] ['.']) "web9".toList, Event.write m] ∧
      handleNotFound [] (request 5 "web9.myapp.ops." TypeA ClassINET) = [Event.write m] ∧
      m.Id = 5 ∧ m.Response = true ∧
      m.Question = [{ Name := "web9.myapp.ops.".toList, Qtype := TypeA, Qclass := ClassINET }] ∧
      m.Rcode = RcodeNameError ∧ m.Answer = [] :=
  C5_lookup_error_rejected scenarioStore parseIPv4 noIPv6 opsDomain
    (request 5 "web9.myapp.ops." TypeA ClassINET)
    { Name := "web9.myapp.ops.".toList, Qtype := TypeA, Qclass := ClassINET } []
    rfl rfl rfl "web9".toList "myapp".toList [] (by decide)
    { hostname := "web9".toList, deployment := "myapp".toList, cause := .errNoRows }
    rfl

/-- C6 (the code departs from the claim): whenever the scan of the selected
row succeeds, `nixopsHostIp` returns without error, whatever the stored
text is; for the stored text `not-an-ip`, which `net.ParseIP` rejects with
nil, it returns the nil address, and the handler writes a reply with the
success code and one A record whose address is nil. -/
theorem C6_malformed_value_no_error (p4 p6 : Str → IP) :
    (∀ (db : Store) (deployment hostname value : Str),
      db hostname deployment = .ok value →
      nixopsHostIp db p4 p6 deployment hostname = .ok (ParseIP p4 p6 value)) ∧
    ParseIP p4 p6 "not-an-ip".toList = [] ∧
    nixopsHostIp scenarioStore p4 p6 "myapp".toList "bad".toList = .ok [] ∧
    domainHandler scenarioStore p4 p6 opsDomain (request 6 "bad.myapp.ops." TypeA ClassINET) =
      .ok [Event.lookup "myapp".toList "bad".toList,
           Event.write { Msg.new with
             Id := 6, Response := true, RecursionDesired := true, Rcode := RcodeSuccess,
             Question := [{ Name := "bad.myapp.ops.".toList, Qtype := TypeA,
                            Qclass := ClassINET }],
             Answer := [{ Hdr := { Name := "bad.myapp.ops.".toList, Rrtype := TypeA,
                                   Class := ClassINET, Ttl := 30, Rdlength := 0 },
                          A := [] }] }] := by
  refine ⟨?_, ?_, ?_, ?_⟩
  · intro db deployment hostname value h
    simp [nixopsHostIp, h]
  · rfl
  · rfl
  · rfl

/-- C7: for a type-A, class-INET question, what the handler splits is the
name without its tail `domain + "."` when the name ends with it, and the
whole name when it does not: in either case, when that remainder is `h.d`
with no dot in `h`, the handler looks up machine `h` of deployment `d`, and
when it holds no dot the handler drops the request.  So a name that does
not end with the suffix and splits into a hostname and at least one more
label is still looked up. -/
theorem C7_suffix_removed_or_name_kept
    (db : Store) (p4 p6 : Str → IP) (domain : Str) (r : Msg) (q : Question)
    (qs : List Question) (hq : r.Question = q :: qs)
    (hA : q.Qtype = TypeA) (hC : q.Qclass = ClassINET) :
    (∀ p, q.Name = p ++ (domain ++ ['.']) →
      TrimSuffix q.Name (domain ++ ['.']) = p ∧
      (∀ h d, '.' ∉ h → p = h ++ ['.'] ++ d →
        ∃ tail, domainHandler db p4 p6 domain r = .ok (Event.lookup d h :: tail)) ∧
      ('.' ∉ p → domainHandler db p4 p6 domain r = .ok [])) ∧
    (¬ (domain ++ ['.']) <:+ q.Name →
      TrimSuffix q.Name (domain ++ ['.']) = q.Name ∧
      (∀ hostname label more, Split q.Name '.' = hostname :: label :: more →
        ∃ tail, domainHandler db p4 p6 domain r =
          .ok (Event.lookup (Join (label :: more) ['.']) hostname :: tail)) ∧
      (∀ h d, '.' ∉ h → q.Name = h ++ ['.'] ++ d →
        ∃ tail, domainHandler db p4 p6 domain r = .ok (Event.lookup d h :: tail)) ∧
      ('.' ∉ q.Name → domainHandler db p4 p6 domain r = .ok [])) := by
  refine ⟨?_, ?_⟩
  · intro p hp
    have htrim : TrimSuffix q.Name (domain ++ ['.']) = p := by
      rw [hp]
      exact TrimSuffix_append p (domain ++ ['.'])
    refine ⟨htrim, ?_, ?_⟩
    · intro h d hh hparts
      exact domainHandler_lookup_of_parts db p4 p6 domain r q qs hq hA hC h d hh
        (htrim.trans hparts)
    · intro hno
      apply domainHandler_silent_of_no_dot db p4 p6 domain r q qs hq hA hC
      rw [htrim]
      exact hno
  · intro hns
    have hkeep := TrimSuffix_of_not_suffix q.Name (domain ++ ['.']) hns
    refine ⟨hkeep, ?_, ?_, ?_⟩
    · intro hostname label more hsplit
      rw [← hkeep] at hsplit
      have hrun := domainHandler_parsed db p4 p6 domain r q qs hq hA hC hostname label more hsplit
      cases hip : nixopsHostIp db p4 p6 (Join (label :: more) ['.']) hostname with
      | error e =>
        rw [hip] at hrun
        exact ⟨_, hrun⟩
      | ok ip =>
        rw [hip] at hrun
        exact ⟨_, hrun⟩
    · intro h d hh hparts
      exact domainHandler_lookup_of_parts db p4 p6 domain r q qs hq hA hC h d hh
        (hkeep.trans hparts)
    · intro hno
      apply domainHandler_silent_of_no_dot db p4 p6 domain r q qs hq hA hC
      rw [hkeep]
      exact hno

/-- C7 at domain `.ops`: `db1.myapp.ops.` ends with `.ops.` and is looked up
as machine `db1` of deployment `myapp`; `db1.myapp.com.` does not end with
it and is looked up as machine `db1` of deployment `myapp.com.`. -/
theorem C7_suffix_removed_or_name_kept_witness :
    (TrimSuffix "db1.myapp.ops.".toList (opsDomain ++ ['.']) = "db1.myapp".toList) ∧
    (∃ tail, domainHandler scenarioStore parseIPv4 noIPv6 opsDomain
        (request 7 "db1.myapp.ops." TypeA ClassINET) =
      .ok (Event.lookup "myapp".toList "db1".toList :: tail)) ∧
    (¬ (opsDomain ++ ['.']) <:+ "db1.myapp.com.".toList) ∧
    (TrimSuffix "db1.myapp.com.".toList (opsDomain ++ ['.']) = "db1.myapp.com.".toList) ∧
    (∃ tail, domainHandler scenarioStore parseIPv4 noIPv6 opsDomain
        (request 7 "db1.myapp.com." TypeA ClassINET) =
      .ok (Event.lookup "myapp.com.".toList "db1".toList :: tail)) :=
  ⟨((C7_suffix_removed_or_name_kept scenarioStore parseIPv4 noIPv6 opsDomain
      (request 7 "db1.myapp.ops." TypeA ClassINET)
      { Name := "db1.myapp.ops.".toList, Qtype := TypeA, Qclass := ClassINET } []
      rfl rfl rfl).1 "db1.myapp".toList (by decide)).1,
   ((C7_suffix_removed_or_name_kept scenarioStore parseIPv4 noIPv6 opsDomain
      (request 7 "db1.myapp.ops." TypeA ClassINET)
      { Name := "db1.myapp.ops.".toList, Qtype := TypeA, Qclass := ClassINET } []
      rfl rfl rfl).1 "db1.myapp".toList (by decide)).2.1
      "db1".toList "myapp".toList (by decide) (by decide),
   by decide,
   ((C7_suffix_removed_or_name_kept scenarioStore parseIPv4 noIPv6 opsDomain
      (request 7 "db1.myapp.com." TypeA ClassINET)
      { Name := "db1.myapp.com.".toList, Qtype := TypeA, Qclass := ClassINET } []
      rfl rfl rfl).2 (by decide)).1,
   ((C7_suffix_removed_or_name_kept scenarioStore parseIPv4 noIPv6 opsDomain
      (request 7 "db1.myapp.com." TypeA ClassINET)
      { Name := "db1.myapp.com.".toList, Qtype := TypeA, Qclass := ClassINET } []
      rfl rfl rfl).2 (by decide)).2.2.1
      "db1".toList "myapp.com.".toList (by decide) (by decide)⟩

/-- C8: replacing the message id of a request by `id` changes the outcome
of the handler (a panic, or the lookups performed and the replies written)
only in the id of the written replies, which becomes `id`; every written
reply carries the id of its request. -/
theorem C8_outcome_up_to_message_id
    (db : Store) (p4 p6 : Str → IP) (domain : Str) (r : Msg) (id : Nat) :
    domainHandler db p4 p6 domain { r with Id := id } =
      (domainHandler db p4 p6 domain r).map (List.map (Event.setId id)) ∧
    (domainHandler db p4 p6 domain r).map (List.map (Event.setId r.Id)) =
      domainHandler db p4 p6 domain r := by
  have key : ∀ (r : Msg) (id : Nat), domainHandler db p4 p6 domain { r with Id := id } =
      (domainHandler db p4 p6 domain r).map (List.map (Event.setId id)) := by
    intro r id
    have hcases : r.Question = [] ∨ ∃ q qs, r.Question = q :: qs := by
      cases r.Question with
      | nil => exact Or.inl rfl
      | cons q qs => exact Or.inr ⟨q, qs, rfl⟩
    rcases hcases with hq | ⟨q, qs, hq⟩
    · rw [domainHandler_no_question db p4 p6 domain r hq,
        domainHandler_no_question db p4 p6 domain { r with Id := id } hq]
      rfl
    · have hset : Msg.new.SetReply { r with Id := id } =
          { Msg.new.SetReply r with Id := id } := by
        simp only [Msg.SetReply, hq]
        split <;> rfl
      by_cases hgate : q.Qtype ≠ TypeA ∨ q.Qclass ≠ ClassINET
      · rw [domainHandler_rejected db p4 p6 domain r q qs hq hgate,
          domainHandler_rejected db p4 p6 domain { r with Id := id } q qs hq hgate]
        simp [handleNotFound, Except.map, Event.setId, hset]
      · have hA : q.Qtype = TypeA := by
          by_contra h
          exact hgate (Or.inl h)
        have hC : q.Qclass = ClassINET := by
          by_contra h
          exact hgate (Or.inr h)
        by_cases hlen : (Split (TrimSuffix q.Name (domain ++ ['.'])) '.').length < 2
        · rw [domainHandler_short db p4 p6 domain r q qs hq hA hC hlen,
            domainHandler_short db p4 p6 domain { r with Id := id } q qs hq hA hC hlen]
          rfl
        · obtain ⟨hostname, label, more, hsplit⟩ :=
            (two_le_length_iff _).1 (Nat.le_of_not_lt hlen)
          rw [domainHandler_parsed db p4 p6 domain r q qs hq hA hC hostname label more hsplit,
            domainHandler_parsed db p4 p6 domain { r with Id := id } q qs hq hA hC
              hostname label more hsplit]
          cases nixopsHostIp db p4 p6 (Join (label :: more) ['.']) hostname with
          | error e => simp [handleNotFound, Except.map, Event.setId, hset]
          | ok ip => simp [Except.map, Event.setId, hset]
  refine ⟨key r id, ?_⟩
  have h := key r r.Id
  exact h.symm

/-- C9: when the trimmed name splits into a hostname and at least one more
label, the hostname holds no `"."`, and the hostname, a `"."` and the
deployment (the remaining labels joined with `"."`) make up the trimmed
name again; these are the hostname and deployment the handler looks up for
a type-A, class-INET question with that name. -/
theorem C9_split_and_join_lose_nothing
    (domain qname hostname label : Str) (more : List Str)
    (hsplit : Split (TrimSuffix qname (domain ++ ['.'])) '.' = hostname :: label :: more) :
    '.' ∉ hostname ∧
    hostname ++ ['.'] ++ Join (label :: more) ['.'] = TrimSuffix qname (domain ++ ['.']) ∧
    ∀ (db : Store) (p4 p6 : Str → IP) (r : Msg) (qs : List Question),
      r.Question = { Name := qname, Qtype := TypeA, Qclass := ClassINET } :: qs →
      ∃ tail, domainHandler db p4 p6 domain r =
        .ok (Event.lookup (Join (label :: more) ['.']) hostname :: tail) := by
  refine ⟨Split_head_no_sep _ _ _ _ hsplit, Split_cons_cons _ _ _ _ _ hsplit, ?_⟩
  intro db p4 p6 r qs hq
  have hrun := domainHandler_parsed db p4 p6 domain r
    { Name := qname, Qtype := TypeA, Qclass := ClassINET } qs hq rfl rfl hostname label more hsplit
  cases hip : nixopsHostIp db p4 p6 (Join (label :: more) ['.']) hostname with
  | error e =>
    rw [hip] at hrun
    exact ⟨_, hrun⟩
  | ok ip =>
    rw [hip] at hrun
    exact ⟨_, hrun⟩

/-- C9 at domain `.ops` and the name `db1.staging.myapp.ops.`. -/
theorem C9_split_and_join_lose_nothing_witness :
    '.' ∉ "db1".toList ∧
    "db1".toList ++ ['.'] ++ Join ["staging".toList, "myapp".toList] ['.']
      = TrimSuffix "db1.staging.myapp.ops.".toList (opsDomain ++ ['.']) ∧
    ∀ (db : Store) (p4 p6 : Str → IP) (r : Msg) (qs : List Question),
      r.Question = { Name := "db1.staging.myapp.ops.".toList, Qtype := TypeA,
                     Qclass := ClassINET } :: qs →
      ∃ tail, domainHandler db p4 p6 opsDomain r =
        .ok (Event.lookup (Join ["staging".toList, "myapp".toList] ['.']) "db1".toList :: tail) :=
  C9_split_and_join_lose_nothing opsDomain "db1.staging.myapp.ops.".toList
    "db1".toList "staging".toList ["myapp".toList] (by decide)

/-- C10: the split of any string has at least one element, so `query[0]`
and `query[1:]` are defined; the handler panics exactly on a request whose
question section is empty, and then at `r.Question[0]`. -/
theorem C10_only_empty_question_panics
    (db : Store) (p4 p6 : Str → IP) (domain : Str) (r : Msg) :
    (∀ (s : Str) (sep : Char), 1 ≤ (Split s sep).length) ∧
    (∀ (s : Str) (sep : Char), ∃ first rest,
      index (Split s sep) 0 = .ok first ∧ sliceFrom (Split s sep) 1 = .ok rest) ∧
    (∀ p, domainHandler db p4 p6 domain r = .error p ↔
      (r.Question = [] ∧ p = .indexOutOfRange 0 0)) := by
  refine ⟨Split_length_pos, ?_, ?_⟩
  · intro s sep
    cases hs : Split s sep with
    | nil => exact absurd hs (Split_ne_nil s sep)
    | cons a l => exact ⟨a, l, by simp [index], by simp [sliceFrom]⟩
  · intro p
    cases hq : r.Question with
    | nil =>
      rw [domainHandler_no_question db p4 p6 domain r hq]
      constructor
      · intro h
        injection h with h
        exact ⟨rfl, h.symm⟩
      · rintro ⟨_, rfl⟩
        rfl
    | cons q qs =>
      have hok : ∃ evs, domainHandler db p4 p6 domain r = .ok evs := by
        by_cases hgate : q.Qtype ≠ TypeA ∨ q.Qclass ≠ ClassINET
        · exact ⟨_, domainHandler_rejected db p4 p6 domain r q qs hq hgate⟩
        · have hA : q.Qtype = TypeA := by
            by_contra h
            exact hgate (Or.inl h)
          have hC : q.Qclass = ClassINET := by
            by_contra h
            exact hgate (Or.inr h)
          by_cases hlen : (Split (TrimSuffix q.Name (domain ++ ['.'])) '.').length < 2
          · exact ⟨_, domainHandler_short db p4 p6 domain r q qs hq hA hC hlen⟩
          · obtain ⟨hostname, label, more, hsplit⟩ :=
              (two_le_length_iff _).1 (Nat.le_of_not_lt hlen)
            have hrun := domainHandler_parsed db p4 p6 domain r q qs hq hA hC
              hostname label more hsplit
            cases hip : nixopsHostIp db p4 p6 (Join (label :: more) ['.']) hostname with
            | error e =>
              rw [hip] at hrun
              exact ⟨_, hrun⟩
            | ok ip =>
              rw [hip] at hrun
              exact ⟨_, hrun⟩
      obtain ⟨evs, hevs⟩ := hok
      rw [hevs]
      constructor
      · intro h
        cases h
      · rintro ⟨h, _⟩
        cases h

/-! ## the scenarios, evaluated -/

/-- Scenario 2: the name `db1.staging.myapp.ops.` is looked up as machine
`db1` of deployment `staging.myapp` and answered with the recorded address. -/
theorem scenario_multi_label_deployment :
    domainHandler scenarioStore parseIPv4 noIPv6 opsDomain
      (request 8 "db1.staging.myapp.ops." TypeA ClassINET) =
    .ok [Event.lookup "staging.myapp".toList "db1".toList,
         Event.write { Msg.new with
           Id := 8, Response := true, RecursionDesired := true, Rcode := RcodeSuccess,
           Question := [{ Name := "db1.staging.myapp.ops.".toList, Qtype := TypeA,
                          Qclass := ClassINET }],
           Answer := [{ Hdr := { Name := "db1.staging.myapp.ops.".toList, Rrtype := TypeA,
                                 Class := ClassINET, Ttl := 30, Rdlength := 0 },
                        A := [0, 0, 0, 0, 0, 0, 0, 0, 0, 0, 255, 255, 10, 0, 0, 6] }] }] := by
  rfl

/-- A store that fails and a store without the row give the same events. -/
theorem scenario_store_failure_as_no_row :
    domainHandler (brokenStore "disk I/O error".toList) parseIPv4 noIPv6 opsDomain
      (request 9 "db1.myapp.ops." TypeA ClassINET) =
    domainHandler (rowStore []) parseIPv4 noIPv6 opsDomain
      (request 9 "db1.myapp.ops." TypeA ClassINET) := by
  rfl

/-- With the default `-domain=""` the suffix is the final dot alone. -/
theorem scenario_default_domain :
    Split (TrimSuffix "db1.myapp.".toList ([] ++ ['.'])) '.' = ["db1".toList, "myapp".toList] := by
  decide

end NixopsDns
